import Mathlib

/-!
A shallow embedding of `src/sync_appfolio_properties.py` (AppFolio →
Supabase property sync) and proofs about its reconciliation core.

The embedding mirrors the script function by function:
  * `fetch_appfolio_properties` returns a JSON `results` array; each element
    is modelled by `ExtProp` (only the two fields the sync reads).
  * `fetch_supabase_properties` returns rows of the `properties` table
    (`SupaRow`) and indexes them by `appfolio_id` (`indexRows`, the dict
    comprehension on line 74).
  * The main loop of `sync_properties` (lines 165-195) is `syncStep`
    folded over the fetched list; the deactivation loop (lines 198-205)
    is `deactStep` folded over the store mapping; `sync_properties`
    models the whole run including credential validation and exit code.
Network effects are supplied as parameters: the two fetch outcomes as
`Option` values (`none` = request exception, which makes the script call
`sys.exit(1)`), and write success as an oracle `wr : Nat → Bool` giving
the outcome of the n-th write request of the run.
-/

/-- A property record of the AppFolio `results` array: only the fields
`sync_properties` reads. A field absent from the JSON object is `none`;
a numeric `property_id` is represented by its decimal string (the script
immediately applies `str(...)` to it). -/
structure ExtProp where
  property_id : Option String
  property_address : Option String
deriving Repr, DecidableEq

/-- Python `str(...)` applied to an optional string: `str(None)` is the
four-character string `"None"`, not the empty string. -/
def pyStr : Option String → String
  | none => "None"
  | some s => s

/-- Python `str.strip()`: drop leading and trailing whitespace. -/
def pyStrip (s : String) : String :=
  ⟨List.reverse (List.dropWhile Char.isWhitespace
    (List.reverse (List.dropWhile Char.isWhitespace s.data)))⟩

/-- `appfolio_id = str(prop.get("property_id"))` (line 166). -/
def extId (p : ExtProp) : String := pyStr p.property_id

/-- `address = prop.get("property_address", "").strip()` (line 167). -/
def extAddr (p : ExtProp) : String := pyStrip (p.property_address.getD "")

/-- A row of the Supabase `properties` table as fetched with
`select=id,address,appfolio_id,active` (`fetch_supabase_properties`).
`appfolio_id` is nullable; `none` stands for SQL null or an absent field. -/
structure SupaRow where
  id : Nat
  address : String
  appfolio_id : Option String
  active : Bool
deriving Repr, DecidableEq

/-- The mapping `appfolio_id → row` built by `fetch_supabase_properties`,
as an insertion-ordered association list (the shape of a Python dict). -/
abbrev StoreMap := List (String × SupaRow)

/-- Python dict assignment `d[k] = v`: replace in place if the key exists,
otherwise append (Python dicts preserve insertion order). -/
def dictInsert (k : String) (v : SupaRow) : StoreMap → StoreMap
  | [] => [(k, v)]
  | (k', v') :: d => if k' = k then (k, v) :: d else (k', v') :: dictInsert k v d

/-- Python dict lookup `d[k]` / membership `k in d`. -/
def lookupDict (k : String) : StoreMap → Option SupaRow
  | [] => none
  | (k', v) :: d => if k' = k then some v else lookupDict k d

/-- One step of the dict comprehension
`{p["appfolio_id"]: p for p in properties if p.get("appfolio_id")}`
(line 74): a row is kept only if its `appfolio_id` is truthy, i.e.
present and not the empty string. -/
def indexStep (d : StoreMap) (p : SupaRow) : StoreMap :=
  match p.appfolio_id with
  | some s => if s = "" then d else dictInsert s p d
  | none => d

/-- The indexing of `fetch_supabase_properties` (line 74). -/
def indexRows (rows : List SupaRow) : StoreMap :=
  rows.foldl indexStep []

/-- The key under which `indexRows` files a row: its `appfolio_id` when
present and non-empty, otherwise nothing. -/
def rowKey (p : SupaRow) : Option String :=
  match p.appfolio_id with
  | some s => if s = "" then none else some s
  | none => none

/-- A write operation against the store: `insert_property` (POST) or
`update_property_status` (PATCH on `appfolio_id=eq.<id>`). -/
inductive Op where
  | Insert (appfolio_id address : String)
  | SetActive (appfolio_id : String) (active : Bool)
deriving Repr, DecidableEq

/-- The external id an operation is addressed to. -/
def Op.targetId : Op → String
  | .Insert i _ => i
  | .SetActive i _ => i

/-- The JSON payload of `update_property_status` (lines 120-122),
as a (field, value) list. -/
def update_payload (active : Bool) : List (String × Bool) :=
  [("active", active)]

/-- The query parameters of `update_property_status` (lines 116-118). -/
def update_params (appfolio_id : String) : List (String × String) :=
  [("appfolio_id", "eq." ++ appfolio_id)]

/-- The statistics dictionary of `sync_properties` (lines 153-159). -/
structure Stats where
  added : Nat
  reactivated : Nat
  deactivated : Nat
  unchanged : Nat
  errors : Nat
deriving Repr, DecidableEq

/-- The mutable state of a `sync_properties` run: the `appfolio_ids` set
(as a duplicate-free insertion list), the statistics, the number of write
requests issued so far, and the trace of write operations attempted. -/
structure SyncState where
  ids : List String
  stats : Stats
  calls : Nat
  ops : List Op
deriving Repr, DecidableEq

/-- Python `set.add`. -/
def insertSet (x : String) (s : List String) : List String :=
  if x ∈ s then s else s ++ [x]

/-- One iteration of the main loop of `sync_properties` (lines 165-195):
skip a record with falsy id or stripped address, otherwise add its id to
the set and insert / reactivate / count it unchanged against the fixed
store mapping, counting a failed write as an error. -/
def syncStep (store : StoreMap) (wr : Nat → Bool) (st : SyncState) (p : ExtProp) :
    SyncState :=
  let aid := extId p
  let addr := extAddr p
  if aid = "" ∨ addr = "" then st
  else
    let st1 : SyncState := { st with ids := insertSet aid st.ids }
    match lookupDict aid store with
    | some row =>
      if row.active then
        { st1 with stats := { st1.stats with unchanged := st1.stats.unchanged + 1 } }
      else
        { st1 with
          calls := st1.calls + 1
          ops := st1.ops ++ [Op.SetActive aid true]
          stats :=
            if wr st1.calls then
              { st1.stats with reactivated := st1.stats.reactivated + 1 }
            else
              { st1.stats with errors := st1.stats.errors + 1 } }
    | none =>
      { st1 with
        calls := st1.calls + 1
        ops := st1.ops ++ [Op.Insert aid addr]
        stats :=
          if wr st1.calls then
            { st1.stats with added := st1.stats.added + 1 }
          else
            { st1.stats with errors := st1.stats.errors + 1 } }

/-- One iteration of the deactivation loop of `sync_properties`
(lines 198-205): a store row still active whose id was not seen in the
external list gets a `SetActive _ false` write. -/
def deactStep (wr : Nat → Bool) (st : SyncState) (kv : String × SupaRow) :
    SyncState :=
  if kv.1 ∉ st.ids ∧ kv.2.active then
    { st with
      calls := st.calls + 1
      ops := st.ops ++ [Op.SetActive kv.1 false]
      stats :=
        if wr st.calls then
          { st.stats with deactivated := st.stats.deactivated + 1 }
        else
          { st.stats with errors := st.stats.errors + 1 } }
  else st

/-- The statistics dictionary as initialised on lines 153-159. -/
def initState : SyncState :=
  { ids := [], stats := ⟨0, 0, 0, 0, 0⟩, calls := 0, ops := [] }

/-- The reconciliation part of `sync_properties`: the main loop over the
fetched AppFolio list followed by the deactivation loop over the store
mapping. -/
def runSync (store : StoreMap) (wr : Nat → Bool) (ext : List ExtProp) :
    SyncState :=
  store.foldl (deactStep wr) (ext.foldl (syncStep store wr) initState)

/-- The four credentials read from the environment (lines 16-19); `none`
stands for an unset variable. -/
structure Env where
  appfolio_client_id : Option String
  appfolio_client_secret : Option String
  supabase_url : Option String
  supabase_service_key : Option String

/-- Python truthiness of `os.environ.get(var)`: false for an unset
variable and for one set to the empty string. -/
def pyTruthy : Option String → Bool
  | none => false
  | some s => !(s == "")

/-- `[var for var in required_vars if not os.environ.get(var)]`
(lines 139-143). -/
def missingVars (e : Env) : List String :=
  (if pyTruthy e.appfolio_client_id then [] else ["APPFOLIO_CLIENT_ID"]) ++
  (if pyTruthy e.appfolio_client_secret then [] else ["APPFOLIO_CLIENT_SECRET"]) ++
  (if pyTruthy e.supabase_url then [] else ["SUPABASE_URL"]) ++
  (if pyTruthy e.supabase_service_key then [] else ["SUPABASE_SERVICE_KEY"])

/-- A whole run of `sync_properties` (lines 132-220): validate the
credentials, fetch both datasets (an exception in either fetch makes the
script exit with code 1 before any write), reconcile, and exit with
code 1 exactly when the error counter is positive. The result is the
process exit code together with the final state when the reconciliation
ran. -/
def sync_properties (env : Env) (appfolio : Option (List ExtProp))
    (supabase : Option (List SupaRow)) (wr : Nat → Bool) :
    Nat × Option SyncState :=
  if missingVars env ≠ [] then (1, none)
  else
    match appfolio with
    | none => (1, none)
    | some ext =>
      match supabase with
      | none => (1, none)
      | some rows =>
        let st := runSync (indexRows rows) wr ext
        (if st.stats.errors > 0 then 1 else 0, some st)

/-- A fetched record is processed (not skipped by line 169) iff its id and
its stripped address are both non-empty. -/
def validExt (p : ExtProp) : Bool :=
  if extId p = "" ∨ extAddr p = "" then false else true

/-- The write operation the main loop issues for one fetched record:
nothing for a skipped or unchanged record, otherwise an insert or a
reactivation decided against the fixed store mapping. -/
def recordOp (store : StoreMap) (p : ExtProp) : Option Op :=
  if extId p = "" ∨ extAddr p = "" then none
  else
    match lookupDict (extId p) store with
    | some row =>
      if row.active then none else some (Op.SetActive (extId p) true)
    | none => some (Op.Insert (extId p) (extAddr p))

/-- The ids of the processed external records: the contents of the
`appfolio_ids` set when the main loop finishes. -/
def validIds (ext : List ExtProp) : List String :=
  (ext.filter validExt).map extId

/-- The operation the deactivation loop issues for one store entry. -/
def deactOp (ids : List String) (kv : String × SupaRow) : Option Op :=
  if kv.1 ∉ ids ∧ kv.2.active then some (Op.SetActive kv.1 false) else none

/-- The full trace of write operations one reconciliation run attempts:
inserts and reactivations in external-list order, then deactivations in
store-mapping order. -/
def reconcileOps (ext : List ExtProp) (store : StoreMap) : List Op :=
  ext.filterMap (recordOp store) ++ store.filterMap (deactOp (validIds ext))

/-- A record the main loop counts as unchanged: processed, present in the
store mapping, and already active there. -/
def unchangedRec (store : StoreMap) (p : ExtProp) : Bool :=
  validExt p &&
    (match lookupDict (extId p) store with
     | some row => row.active
     | none => false)

/-- The final value of the `unchanged` counter. -/
def unchangedCount (store : StoreMap) (ext : List ExtProp) : Nat :=
  (ext.filter (unchangedRec store)).length

/-- How many records of the external list are processed with the given id. -/
def occIn (i : String) (ext : List ExtProp) : Nat :=
  (ext.filter (fun p => validExt p && (extId p == i))).length

/-- Does this operation insert the given id? -/
def isInsertFor (i : String) : Op → Bool
  | .Insert j _ => j == i
  | .SetActive _ _ => false

/-- Does this operation reactivate the given id? -/
def isReactFor (i : String) : Op → Bool
  | .Insert _ _ => false
  | .SetActive j b => (j == i) && b

/-- Does this operation deactivate the given id? -/
def isDeactFor (i : String) : Op → Bool
  | .Insert _ _ => false
  | .SetActive j b => (j == i) && !b

/-- The ids targeted by the insert operations of a trace. -/
def insertTargets (l : List Op) : List String :=
  l.filterMap (fun o => match o with | .Insert j _ => some j | _ => none)

/-- The ids targeted by the reactivation operations of a trace. -/
def reactTargets (l : List Op) : List String :=
  l.filterMap
    (fun o => match o with | .SetActive j true => some j | _ => none)

/-- The ids targeted by the deactivation operations of a trace. -/
def deactTargets (l : List Op) : List String :=
  l.filterMap
    (fun o => match o with | .SetActive j false => some j | _ => none)

/-- Effect of a successful write on the store mapping, as the destination
applies it: `insert_property` makes the mapping associate the id to a
fresh active row (lines 92-96), `update_property_status` sets the active
flag of every row whose `appfolio_id` matches the PATCH filter
(lines 116-122). -/
def applyOp (store : StoreMap) : Op → StoreMap
  | Op.Insert aid addr => dictInsert aid ⟨0, addr, some aid, true⟩ store
  | Op.SetActive aid b =>
    store.map (fun kv =>
      if kv.1 = aid then (kv.1, { kv.2 with active := b }) else kv)

/-- Apply a list of write operations in order. -/
def applyOps (store : StoreMap) (ops : List Op) : StoreMap :=
  ops.foldl applyOp store

/-! ### Basic lemmas about the dictionary model -/

lemma lookupDict_dictInsert (i j : String) (v : SupaRow) (s : StoreMap) :
    lookupDict i (dictInsert j v s) =
      if j = i then some v else lookupDict i s := by
  induction s with
  | nil => simp [dictInsert, lookupDict]
  | cons kv s ih =>
    obtain ⟨k, w⟩ := kv
    by_cases hkj : k = j
    · subst hkj
      by_cases hki : k = i <;> simp [dictInsert, lookupDict, hki]
    · by_cases hki : k = i
      · subst hki
        have : ¬ j = k := fun h => hkj h.symm
        simp [dictInsert, lookupDict, hkj, this]
      · simp [dictInsert, lookupDict, hkj, hki, ih]

lemma mem_dictInsert (k j : String) (r v : SupaRow) (s : StoreMap)
    (h : (k, r) ∈ dictInsert j v s) : (k = j ∧ r = v) ∨ (k, r) ∈ s := by
  induction s with
  | nil =>
    simp [dictInsert] at h
    exact Or.inl ⟨h.1, h.2⟩
  | cons kv s ih =>
    obtain ⟨k', w⟩ := kv
    by_cases hk : k' = j
    · subst hk
      simp [dictInsert] at h
      rcases h with ⟨h1, h2⟩ | h
      · exact Or.inl ⟨h1, h2⟩
      · exact Or.inr (List.mem_cons_of_mem _ h)
    · simp [dictInsert, hk] at h
      rcases h with ⟨h1, h2⟩ | h
      · subst h1; subst h2; exact Or.inr (List.mem_cons_self _ _)
      · rcases ih h with h' | h'
        · exact Or.inl h'
        · exact Or.inr (List.mem_cons_of_mem _ h')

/-! ### What one iteration of each loop does -/

lemma syncStep_ops (store : StoreMap) (wr : Nat → Bool) (st : SyncState)
    (p : ExtProp) :
    (syncStep store wr st p).ops = st.ops ++ (recordOp store p).toList := by
  unfold syncStep recordOp
  by_cases h : extId p = "" ∨ extAddr p = ""
  · simp [h]
  · cases hl : lookupDict (extId p) store with
    | none => simp [h, hl]
    | some row =>
      by_cases ha : row.active <;> simp [h, hl, ha]

lemma syncStep_ids (store : StoreMap) (wr : Nat → Bool) (st : SyncState)
    (p : ExtProp) (x : String) :
    x ∈ (syncStep store wr st p).ids ↔
      x ∈ st.ids ∨ (validExt p = true ∧ extId p = x) := by
  have hins : ∀ a s, x ∈ insertSet a s ↔ x ∈ s ∨ a = x := by
    intro a s
    unfold insertSet
    by_cases hm : a ∈ s
    · simp only [if_pos hm]
      constructor
      · exact Or.inl
      · rintro (hx | rfl)
        · exact hx
        · exact hm
    · simp [if_neg hm, List.mem_append, or_comm, eq_comm]
  unfold syncStep validExt
  by_cases h : extId p = "" ∨ extAddr p = ""
  · simp [h]
  · cases hl : lookupDict (extId p) store with
    | none => simp [h, hl, hins]
    | some row =>
      by_cases ha : row.active <;> simp [h, hl, ha, hins]

lemma syncStep_unchanged (store : StoreMap) (wr : Nat → Bool) (st : SyncState)
    (p : ExtProp) :
    (syncStep store wr st p).stats.unchanged =
      st.stats.unchanged + (if unchangedRec store p then 1 else 0) := by
  unfold syncStep unchangedRec validExt
  by_cases h : extId p = "" ∨ extAddr p = ""
  · simp [h]
  · cases hl : lookupDict (extId p) store with
    | none => by_cases hw : wr st.calls <;> simp [h, hl, hw]
    | some row =>
      by_cases ha : row.active <;> by_cases hw : wr st.calls <;>
        simp [h, hl, ha, hw]

lemma syncStep_countSum (store : StoreMap) (wr : Nat → Bool) (st : SyncState)
    (p : ExtProp) :
    (syncStep store wr st p).stats.added +
      (syncStep store wr st p).stats.reactivated +
      (syncStep store wr st p).stats.deactivated +
      (syncStep store wr st p).stats.errors =
    st.stats.added + st.stats.reactivated + st.stats.deactivated +
      st.stats.errors + (recordOp store p).toList.length := by
  unfold syncStep recordOp
  by_cases h : extId p = "" ∨ extAddr p = ""
  · simp [h]
  · cases hl : lookupDict (extId p) store with
    | none => by_cases hw : wr st.calls <;> simp [h, hl, hw] <;> omega
    | some row =>
      by_cases ha : row.active <;> by_cases hw : wr st.calls <;>
        simp [h, hl, ha, hw] <;> omega

lemma deactStep_ops (wr : Nat → Bool) (st : SyncState) (kv : String × SupaRow) :
    (deactStep wr st kv).ops = st.ops ++ (deactOp st.ids kv).toList := by
  unfold deactStep deactOp
  by_cases h : kv.1 ∉ st.ids ∧ kv.2.active <;> simp [h]

lemma deactStep_ids (wr : Nat → Bool) (st : SyncState) (kv : String × SupaRow) :
    (deactStep wr st kv).ids = st.ids := by
  unfold deactStep
  by_cases h : kv.1 ∉ st.ids ∧ kv.2.active <;> simp [h]

lemma deactStep_unchanged (wr : Nat → Bool) (st : SyncState)
    (kv : String × SupaRow) :
    (deactStep wr st kv).stats.unchanged = st.stats.unchanged := by
  unfold deactStep
  by_cases h : kv.1 ∉ st.ids ∧ kv.2.active
  · by_cases hw : wr st.calls <;> simp [h, hw]
  · simp [h]

lemma deactStep_countSum (wr : Nat → Bool) (st : SyncState)
    (kv : String × SupaRow) :
    (deactStep wr st kv).stats.added + (deactStep wr st kv).stats.reactivated +
      (deactStep wr st kv).stats.deactivated +
      (deactStep wr st kv).stats.errors =
    st.stats.added + st.stats.reactivated + st.stats.deactivated +
      st.stats.errors + (deactOp st.ids kv).toList.length := by
  unfold deactStep deactOp
  by_cases h : kv.1 ∉ st.ids ∧ kv.2.active
  · by_cases hw : wr st.calls <;> simp [h, hw] <;> omega
  · simp [h]

/-! ### What each whole loop does -/

lemma foldl_sync_ops (store : StoreMap) (wr : Nat → Bool) (ext : List ExtProp) :
    ∀ st : SyncState,
      (ext.foldl (syncStep store wr) st).ops =
        st.ops ++ ext.filterMap (recordOp store) := by
  induction ext with
  | nil => intro st; simp
  | cons p ext ih =>
    intro st
    rw [List.foldl_cons, ih, syncStep_ops]
    cases hro : recordOp store p <;> simp [hro]

lemma foldl_sync_ids (store : StoreMap) (wr : Nat → Bool) (ext : List ExtProp) :
    ∀ (st : SyncState) (x : String),
      x ∈ (ext.foldl (syncStep store wr) st).ids ↔
        x ∈ st.ids ∨ x ∈ validIds ext := by
  induction ext with
  | nil => intro st x; simp [validIds]
  | cons p ext ih =>
    intro st x
    rw [List.foldl_cons, ih, syncStep_ids]
    unfold validIds
    rw [List.filter_cons]
    by_cases hv : validExt p
    · simp only [if_pos hv, List.map_cons, List.mem_cons]
      constructor
      · rintro ((hx | ⟨_, rfl⟩) | hx)
        · exact Or.inl hx
        · exact Or.inr (Or.inl rfl)
        · exact Or.inr (Or.inr hx)
      · rintro (hx | (rfl | hx))
        · exact Or.inl (Or.inl hx)
        · exact Or.inl (Or.inr ⟨hv, rfl⟩)
        · exact Or.inr hx
    · simp only [if_neg hv]
      constructor
      · rintro ((hx | ⟨hv', _⟩) | hx)
        · exact Or.inl hx
        · exact absurd hv' hv
        · exact Or.inr hx
      · rintro (hx | hx)
        · exact Or.inl (Or.inl hx)
        · exact Or.inr hx

lemma foldl_sync_unchanged (store : StoreMap) (wr : Nat → Bool)
    (ext : List ExtProp) :
    ∀ st : SyncState,
      (ext.foldl (syncStep store wr) st).stats.unchanged =
        st.stats.unchanged + unchangedCount store ext := by
  induction ext with
  | nil => intro st; simp [unchangedCount]
  | cons p ext ih =>
    intro st
    rw [List.foldl_cons, ih, syncStep_unchanged]
    unfold unchangedCount
    rw [List.filter_cons]
    by_cases hu : unchangedRec store p <;> simp [hu] <;> omega

lemma foldl_sync_countSum (store : StoreMap) (wr : Nat → Bool)
    (ext : List ExtProp) :
    ∀ st : SyncState,
      (ext.foldl (syncStep store wr) st).stats.added +
        (ext.foldl (syncStep store wr) st).stats.reactivated +
        (ext.foldl (syncStep store wr) st).stats.deactivated +
        (ext.foldl (syncStep store wr) st).stats.errors =
      st.stats.added + st.stats.reactivated + st.stats.deactivated +
        st.stats.errors + (ext.filterMap (recordOp store)).length := by
  induction ext with
  | nil => intro st; simp
  | cons p ext ih =>
    intro st
    rw [List.foldl_cons, ih, syncStep_countSum]
    cases hro : recordOp store p <;> simp [hro] <;> omega

lemma foldl_deact_ids (wr : Nat → Bool) (store : StoreMap) :
    ∀ st : SyncState, (store.foldl (deactStep wr) st).ids = st.ids := by
  induction store with
  | nil => intro st; simp
  | cons kv store ih =>
    intro st
    rw [List.foldl_cons, ih, deactStep_ids]

lemma foldl_deact_ops (wr : Nat → Bool) (store : StoreMap) :
    ∀ st : SyncState,
      (store.foldl (deactStep wr) st).ops =
        st.ops ++ store.filterMap (deactOp st.ids) := by
  induction store with
  | nil => intro st; simp
  | cons kv store ih =>
    intro st
    rw [List.foldl_cons, ih, deactStep_ops, deactStep_ids]
    cases hro : deactOp st.ids kv <;> simp [hro]

lemma foldl_deact_unchanged (wr : Nat → Bool) (store : StoreMap) :
    ∀ st : SyncState,
      (store.foldl (deactStep wr) st).stats.unchanged = st.stats.unchanged := by
  induction store with
  | nil => intro st; simp
  | cons kv store ih =>
    intro st
    rw [List.foldl_cons, ih, deactStep_unchanged]

lemma foldl_deact_countSum (wr : Nat → Bool) (store : StoreMap) :
    ∀ st : SyncState,
      (store.foldl (deactStep wr) st).stats.added +
        (store.foldl (deactStep wr) st).stats.reactivated +
        (store.foldl (deactStep wr) st).stats.deactivated +
        (store.foldl (deactStep wr) st).stats.errors =
      st.stats.added + st.stats.reactivated + st.stats.deactivated +
        st.stats.errors + (store.filterMap (deactOp st.ids)).length := by
  induction store with
  | nil => intro st; simp
  | cons kv store ih =>
    intro st
    rw [List.foldl_cons, ih, deactStep_ids, deactStep_countSum]
    cases hro : deactOp st.ids kv <;> simp [hro] <;> omega

lemma deactOp_congr (ids₁ ids₂ : List String) (kv : String × SupaRow)
    (h : ∀ x, x ∈ ids₁ ↔ x ∈ ids₂) : deactOp ids₁ kv = deactOp ids₂ kv := by
  unfold deactOp
  by_cases hm : kv.1 ∈ ids₁
  · simp [hm, (h kv.1).mp hm]
  · have hm₂ : kv.1 ∉ ids₂ := fun hx => hm ((h kv.1).mpr hx)
    simp [hm, hm₂]

lemma filterMap_deactOp_congr (ids₁ ids₂ : List String) (store : StoreMap)
    (h : ∀ x, x ∈ ids₁ ↔ x ∈ ids₂) :
    store.filterMap (deactOp ids₁) = store.filterMap (deactOp ids₂) := by
  induction store with
  | nil => rfl
  | cons kv store ih =>
    rw [List.filterMap_cons, List.filterMap_cons, deactOp_congr ids₁ ids₂ kv h, ih]

/-! ### The whole run, characterised -/

/-- The trace of attempted write operations of a run does not depend on
which writes succeed: it is exactly `reconcileOps`. -/
theorem runSync_ops (store : StoreMap) (wr : Nat → Bool) (ext : List ExtProp) :
    (runSync store wr ext).ops = reconcileOps ext store := by
  unfold runSync reconcileOps
  rw [foldl_deact_ops, foldl_sync_ops]
  have hids : ∀ x, x ∈ (ext.foldl (syncStep store wr) initState).ids ↔
      x ∈ validIds ext := by
    intro x
    rw [foldl_sync_ids]
    simp [initState]
  rw [filterMap_deactOp_congr _ (validIds ext) store hids]
  simp [initState]

/-- The final `unchanged` counter counts the processed records found
already active in the store. -/
theorem runSync_unchanged (store : StoreMap) (wr : Nat → Bool)
    (ext : List ExtProp) :
    (runSync store wr ext).stats.unchanged = unchangedCount store ext := by
  unfold runSync
  rw [foldl_deact_unchanged, foldl_sync_unchanged]
  simp [initState]

/-- Every attempted operation is accounted for in exactly one of the
`added`, `reactivated`, `deactivated` and `errors` counters. -/
theorem runSync_countSum (store : StoreMap) (wr : Nat → Bool)
    (ext : List ExtProp) :
    (runSync store wr ext).stats.added +
      (runSync store wr ext).stats.reactivated +
      (runSync store wr ext).stats.deactivated +
      (runSync store wr ext).stats.errors =
    (reconcileOps ext store).length := by
  unfold runSync reconcileOps
  rw [foldl_deact_countSum, foldl_sync_countSum]
  have hids : ∀ x, x ∈ (ext.foldl (syncStep store wr) initState).ids ↔
      x ∈ validIds ext := by
    intro x
    rw [foldl_sync_ids]
    simp [initState]
  rw [filterMap_deactOp_congr _ (validIds ext) store hids]
  simp [initState]

/-! ### Characterising the per-record decisions -/

/-- Does an operation target the given external id? -/
def targets (i : String) (o : Op) : Bool :=
  Op.targetId o == i

lemma validExt_iff (p : ExtProp) :
    validExt p = true ↔ (extId p ≠ "" ∧ extAddr p ≠ "") := by
  unfold validExt
  by_cases h : extId p = "" ∨ extAddr p = "" <;> simp [h] <;> tauto

lemma recordOp_eq_some (store : StoreMap) (p : ExtProp) (op : Op)
    (h : recordOp store p = some op) :
    validExt p = true ∧
      ((lookupDict (extId p) store = none ∧
          op = Op.Insert (extId p) (extAddr p)) ∨
       (∃ row, lookupDict (extId p) store = some row ∧ row.active = false ∧
          op = Op.SetActive (extId p) true)) := by
  unfold recordOp at h
  by_cases hv : extId p = "" ∨ extAddr p = ""
  · simp [hv] at h
  · rw [if_neg hv] at h
    refine ⟨by simp [validExt, hv], ?_⟩
    cases hl : lookupDict (extId p) store with
    | none =>
      rw [hl] at h
      exact Or.inl ⟨rfl, (Option.some_injective _ h).symm⟩
    | some row =>
      rw [hl] at h
      by_cases ha : row.active
      · simp [ha] at h
      · simp only [ha, if_neg Bool.false_ne_true] at h
        exact Or.inr ⟨row, rfl, by simpa using ha,
          (Option.some_injective _ h).symm⟩

lemma recordOp_target (store : StoreMap) (p : ExtProp) (op : Op)
    (h : recordOp store p = some op) : Op.targetId op = extId p := by
  rcases (recordOp_eq_some store p op h).2 with ⟨_, rfl⟩ | ⟨row, _, _, rfl⟩ <;>
    rfl

lemma mem_validIds (ext : List ExtProp) (x : String) :
    x ∈ validIds ext ↔ ∃ p, p ∈ ext ∧ validExt p = true ∧ extId p = x := by
  unfold validIds
  simp only [List.mem_map, List.mem_filter]
  constructor
  · rintro ⟨p, ⟨hp, hv⟩, rfl⟩
    exact ⟨p, hp, hv, rfl⟩
  · rintro ⟨p, hp, hv, rfl⟩
    exact ⟨p, ⟨hp, hv⟩, rfl⟩

lemma deactOp_eq_some (S : List String) (kv : String × SupaRow) (op : Op)
    (h : deactOp S kv = some op) :
    op = Op.SetActive kv.1 false ∧ kv.1 ∉ S ∧ kv.2.active = true := by
  unfold deactOp at h
  by_cases hc : kv.1 ∉ S ∧ kv.2.active
  · rw [if_pos hc] at h
    exact ⟨(Option.some_injective _ h).symm, hc.1, hc.2⟩
  · simp [hc] at h

/-! ### Counting operations per id -/

lemma countP_phase1_general (store : StoreMap) (ext : List ExtProp)
    (f : Op → Bool) (g : ExtProp → Bool)
    (hcompat : ∀ p ∈ ext,
      ((recordOp store p).toList.countP f) = if g p then 1 else 0) :
    (ext.filterMap (recordOp store)).countP f = (ext.filter g).length := by
  induction ext with
  | nil => rfl
  | cons p ext ih =>
    have hp := hcompat p (List.mem_cons_self _ _)
    have hrest := ih (fun q hq => hcompat q (List.mem_cons_of_mem _ hq))
    rw [List.filterMap_cons, List.filter_cons]
    by_cases hg : g p
    · rw [if_pos hg] at hp
      cases hro : recordOp store p with
      | none => rw [hro] at hp; simp at hp
      | some op =>
        rw [hro] at hp
        simp only [Option.toList_some, List.countP_cons, List.countP_nil] at hp
        have hf : f op = true := by
          by_cases hfo : f op
          · exact hfo
          · simp [hfo] at hp
        simp [hg, List.countP_cons, hf, hrest]
    · rw [if_neg hg] at hp
      cases hro : recordOp store p with
      | none => simp [hg, hrest]
      | some op =>
        rw [hro] at hp
        simp only [Option.toList_some, List.countP_cons, List.countP_nil] at hp
        have hf : f op = false := by
          by_cases hfo : f op
          · simp [hfo] at hp
          · simp [hfo]
        simp [hg, List.countP_cons, hf, hrest]

lemma countP_phase2_general (S : List String) (store : StoreMap)
    (f : Op → Bool) (g : String × SupaRow → Bool)
    (hcompat : ∀ kv ∈ store,
      ((deactOp S kv).toList.countP f) = if g kv then 1 else 0) :
    (store.filterMap (deactOp S)).countP f = (store.filter g).length := by
  induction store with
  | nil => rfl
  | cons kv store ih =>
    have hp := hcompat kv (List.mem_cons_self _ _)
    have hrest := ih (fun q hq => hcompat q (List.mem_cons_of_mem _ hq))
    rw [List.filterMap_cons, List.filter_cons]
    by_cases hg : g kv
    · rw [if_pos hg] at hp
      cases hro : deactOp S kv with
      | none => rw [hro] at hp; simp at hp
      | some op =>
        rw [hro] at hp
        simp only [Option.toList_some, List.countP_cons, List.countP_nil] at hp
        have hf : f op = true := by
          by_cases hfo : f op
          · exact hfo
          · simp [hfo] at hp
        simp [hg, List.countP_cons, hf, hrest]
    · rw [if_neg hg] at hp
      cases hro : deactOp S kv with
      | none => simp [hg, hrest]
      | some op =>
        rw [hro] at hp
        simp only [Option.toList_some, List.countP_cons, List.countP_nil] at hp
        have hf : f op = false := by
          by_cases hfo : f op
          · simp [hfo] at hp
          · simp [hfo]
        simp [hg, List.countP_cons, hf, hrest]

lemma recordOp_none_of_invalid (store : StoreMap) (p : ExtProp)
    (h : validExt p = false) : recordOp store p = none := by
  unfold validExt at h
  unfold recordOp
  by_cases hc : extId p = "" ∨ extAddr p = ""
  · simp [hc]
  · simp [hc] at h

lemma key_unique (store : StoreMap) (i : String) (row w : SupaRow)
    (hnd : (store.map Prod.fst).Nodup) (hmem : (i, row) ∈ store)
    (hmem' : (i, w) ∈ store) : w = row := by
  induction store with
  | nil => cases hmem
  | cons kv store ih =>
    obtain ⟨k, v⟩ := kv
    rw [List.map_cons, List.nodup_cons] at hnd
    rcases List.mem_cons.mp hmem with h1 | h1 <;>
      rcases List.mem_cons.mp hmem' with h2 | h2
    · rw [Prod.mk.injEq] at h1 h2
      rw [h2.2, h1.2]
    · exfalso
      apply hnd.1
      rw [← (Prod.mk.injEq .. |>.mp h1).1]
      exact List.mem_map.mpr ⟨(i, w), h2, rfl⟩
    · exfalso
      apply hnd.1
      rw [← (Prod.mk.injEq .. |>.mp h2).1]
      exact List.mem_map.mpr ⟨(i, row), h1, rfl⟩
    · exact ih hnd.2 h1 h2

lemma filter_key_singleton (store : StoreMap) (i : String) (row : SupaRow)
    (hnd : (store.map Prod.fst).Nodup) (hmem : (i, row) ∈ store) :
    store.filter (fun kv => kv.1 == i) = [(i, row)] := by
  induction store with
  | nil => cases hmem
  | cons kv store ih =>
    obtain ⟨k, v⟩ := kv
    rw [List.map_cons, List.nodup_cons] at hnd
    rw [List.filter_cons]
    by_cases hk : k = i
    · subst hk
      have hrow : v = row := by
        rcases List.mem_cons.mp hmem with h1 | h1
        · exact (congrArg Prod.snd h1).symm
        · exact absurd (List.mem_map.mpr ⟨(k, row), h1, rfl⟩) hnd.1
      subst hrow
      have hfil : store.filter (fun kv => kv.1 == k) = [] := by
        apply List.filter_eq_nil_iff.mpr
        intro kv' hm
        simp only [beq_iff_eq]
        intro hkv
        exact hnd.1 (List.mem_map.mpr ⟨kv', hm, hkv⟩)
      simp [hfil]
    · have h1 : (i, row) ∈ store := by
        rcases List.mem_cons.mp hmem with h1 | h1
        · exact absurd (congrArg Prod.fst h1).symm hk
        · exact h1
      rw [if_neg (by simpa using hk)]
      exact ih hnd.2 h1

/-- When an id is absent from the store mapping, the main loop issues one
insert for it per processed occurrence in the external list. -/
lemma countInsertFor (store : StoreMap) (ext : List ExtProp) (i : String)
    (h : lookupDict i store = none) :
    (reconcileOps ext store).countP (isInsertFor i) = occIn i ext := by
  unfold reconcileOps occIn
  rw [List.countP_append]
  have h2 : (store.filterMap (deactOp (validIds ext))).countP (isInsertFor i)
      = 0 := by
    rw [countP_phase2_general (validIds ext) store _ (fun _ => false)]
    · simp
    · intro kv _
      cases hro : deactOp (validIds ext) kv with
      | none => simp
      | some op =>
        obtain ⟨rfl, -, -⟩ := deactOp_eq_some _ _ _ hro
        simp [isInsertFor]
  rw [h2, Nat.add_zero]
  apply countP_phase1_general
  intro p _
  by_cases hv : validExt p = true
  · by_cases hip : extId p = i
    · have hrv := (validExt_iff p).mp hv
      unfold recordOp
      rw [if_neg (by tauto)]
      rw [hip, h]
      simp [isInsertFor, hip, hv]
    · cases hro : recordOp store p with
      | none => simp [hv, hip]
      | some op =>
        rcases (recordOp_eq_some _ _ _ hro).2 with ⟨-, rfl⟩ | ⟨row, -, -, rfl⟩ <;>
          simp [isInsertFor, hip, hv]
  · rw [recordOp_none_of_invalid store p (by simpa using hv)]
    simp [hv]

/-- When an id sits in the store mapping with `active = false`, the main
loop issues one reactivation for it per processed occurrence. -/
lemma countReactFor (store : StoreMap) (ext : List ExtProp) (i : String)
    (row : SupaRow) (h1 : lookupDict i store = some row)
    (h2 : row.active = false) :
    (reconcileOps ext store).countP (isReactFor i) = occIn i ext := by
  unfold reconcileOps occIn
  rw [List.countP_append]
  have hp2 : (store.filterMap (deactOp (validIds ext))).countP (isReactFor i)
      = 0 := by
    rw [countP_phase2_general (validIds ext) store _ (fun _ => false)]
    · simp
    · intro kv _
      cases hro : deactOp (validIds ext) kv with
      | none => simp
      | some op =>
        obtain ⟨rfl, -, -⟩ := deactOp_eq_some _ _ _ hro
        simp [isReactFor]
  rw [hp2, Nat.add_zero]
  apply countP_phase1_general
  intro p _
  by_cases hv : validExt p = true
  · by_cases hip : extId p = i
    · have hrv := (validExt_iff p).mp hv
      unfold recordOp
      rw [if_neg (by tauto)]
      rw [hip, h1]
      simp [isReactFor, hv, h2]
    · cases hro : recordOp store p with
      | none => simp [hv, hip]
      | some op =>
        rcases (recordOp_eq_some _ _ _ hro).2 with ⟨-, rfl⟩ | ⟨row', -, -, rfl⟩ <;>
          simp [isReactFor, hip, hv]
  · rw [recordOp_none_of_invalid store p (by simpa using hv)]
    simp [hv]

/-- The insert/reactivate pass never deactivates anything. -/
lemma countDeact_phase1_zero (store : StoreMap) (ext : List ExtProp)
    (i : String) :
    (ext.filterMap (recordOp store)).countP (isDeactFor i) = 0 := by
  rw [countP_phase1_general store ext _ (fun _ => false)]
  · simp
  · intro p _
    cases hro : recordOp store p with
    | none => simp
    | some op =>
      rcases (recordOp_eq_some _ _ _ hro).2 with ⟨-, rfl⟩ | ⟨row, -, -, rfl⟩ <;>
        simp [isDeactFor]

/-- A store row that is still active and whose id was not seen in the
external list is deactivated exactly once (the mapping has one entry per
key). -/
lemma countDeactFor (store : StoreMap) (ext : List ExtProp) (i : String)
    (row : SupaRow) (hnd : (store.map Prod.fst).Nodup)
    (hmem : (i, row) ∈ store) (hact : row.active = true)
    (hS : i ∉ validIds ext) :
    (reconcileOps ext store).countP (isDeactFor i) = 1 := by
  unfold reconcileOps
  rw [List.countP_append, countDeact_phase1_zero, Nat.zero_add]
  rw [countP_phase2_general (validIds ext) store _ (fun kv => kv.1 == i)]
  · rw [filter_key_singleton store i row hnd hmem]
    rfl
  · intro kv hkv
    cases hro : deactOp (validIds ext) kv with
    | none =>
      have hne : kv.1 ≠ i := by
        intro hkeq
        have hmem' : (i, kv.2) ∈ store := by
          rw [← hkeq]
          simpa using hkv
        have hw : kv.2 = row := key_unique store i row kv.2 hnd hmem hmem'
        unfold deactOp at hro
        rw [if_pos ⟨by rw [hkeq]; exact hS, by rw [hw]; exact hact⟩] at hro
        cases hro
      simp [hne]
    | some op =>
      obtain ⟨rfl, -, -⟩ := deactOp_eq_some _ _ _ hro
      by_cases hkeq : kv.1 = i <;> simp [isDeactFor, hkeq]

/-- A processed id found already active in the store gets no operation
from the insert/reactivate pass. -/
lemma countTargets_phase1_zero_active (store : StoreMap) (ext : List ExtProp)
    (i : String) (row : SupaRow) (h1 : lookupDict i store = some row)
    (h2 : row.active = true) :
    (ext.filterMap (recordOp store)).countP (targets i) = 0 := by
  rw [countP_phase1_general store ext _ (fun _ => false)]
  · simp
  · intro p _
    cases hro : recordOp store p with
    | none => simp
    | some op =>
      have htar := recordOp_target store p op hro
      by_cases hip : extId p = i
      · exfalso
        rcases (recordOp_eq_some _ _ _ hro).2 with ⟨hl, -⟩ | ⟨row', hl, hra, -⟩
        · rw [hip, h1] at hl
          cases hl
        · rw [hip, h1] at hl
          rw [Option.some_injective _ hl] at h2
          rw [h2] at hra
          cases hra
      · have : targets i op = false := by
          unfold targets
          rw [htar]
          simpa using hip
        simp [this]

/-- An id the external list does not validly mention gets no operation
from the insert/reactivate pass. -/
lemma countTargets_phase1_zero_notS (store : StoreMap) (ext : List ExtProp)
    (i : String) (hS : i ∉ validIds ext) :
    (ext.filterMap (recordOp store)).countP (targets i) = 0 := by
  rw [countP_phase1_general store ext _ (fun _ => false)]
  · simp
  · intro p hp
    cases hro : recordOp store p with
    | none => simp
    | some op =>
      have htar := recordOp_target store p op hro
      have hv := (recordOp_eq_some _ _ _ hro).1
      have hip : extId p ≠ i := by
        intro hkeq
        exact hS ((mem_validIds ext i).mpr ⟨p, hp, hv, hkeq⟩)
      have : targets i op = false := by
        unfold targets
        rw [htar]
        simpa using hip
      simp [this]

/-- An id the external list validly mentions gets no operation from the
deactivation pass. -/
lemma countTargets_phase2_zero_inS (S : List String) (store : StoreMap)
    (i : String) (hS : i ∈ S) :
    (store.filterMap (deactOp S)).countP (targets i) = 0 := by
  rw [countP_phase2_general S store _ (fun _ => false)]
  · simp
  · intro kv _
    cases hro : deactOp S kv with
    | none => simp
    | some op =>
      obtain ⟨rfl, hnotS, -⟩ := deactOp_eq_some _ _ _ hro
      have hne : kv.1 ≠ i := by
        intro hkeq
        exact hnotS (hkeq ▸ hS)
      have : targets i (Op.SetActive kv.1 false) = false := by
        unfold targets Op.targetId
        simpa using hne
      simp [this]

/-- A store row that is already inactive gets no operation from the
deactivation pass. -/
lemma countTargets_phase2_zero_inactive (S : List String) (store : StoreMap)
    (i : String) (row : SupaRow) (hnd : (store.map Prod.fst).Nodup)
    (hmem : (i, row) ∈ store) (hinact : row.active = false) :
    (store.filterMap (deactOp S)).countP (targets i) = 0 := by
  rw [countP_phase2_general S store _ (fun _ => false)]
  · simp
  · intro kv hkv
    cases hro : deactOp S kv with
    | none => simp
    | some op =>
      obtain ⟨rfl, -, hactv⟩ := deactOp_eq_some _ _ _ hro
      have hne : kv.1 ≠ i := by
        intro hkeq
        have hmem' : (i, kv.2) ∈ store := by
          rw [← hkeq]
          simpa using hkv
        have hw : kv.2 = row := key_unique store i row kv.2 hnd hmem hmem'
        rw [hw, hinact] at hactv
        cases hactv
      have : targets i (Op.SetActive kv.1 false) = false := by
        unfold targets Op.targetId
        simpa using hne
      simp [this]

/-! ### Membership facts about the operation trace -/

lemma mem_phase1_facts (store : StoreMap) (ext : List ExtProp) (op : Op)
    (h : op ∈ ext.filterMap (recordOp store)) :
    Op.targetId op ∈ validIds ext ∧
      ((∃ a, op = Op.Insert (Op.targetId op) a ∧
          lookupDict (Op.targetId op) store = none) ∨
       (op = Op.SetActive (Op.targetId op) true ∧
          ∃ row, lookupDict (Op.targetId op) store = some row ∧
            row.active = false)) := by
  obtain ⟨p, hp, hro⟩ := List.mem_filterMap.mp h
  have htar := recordOp_target store p op hro
  obtain ⟨hv, hshape⟩ := recordOp_eq_some store p op hro
  refine ⟨htar ▸ (mem_validIds ext (extId p)).mpr ⟨p, hp, hv, rfl⟩, ?_⟩
  rcases hshape with ⟨hl, rfl⟩ | ⟨row, hl, hra, rfl⟩
  · exact Or.inl ⟨extAddr p, by rw [htar], htar ▸ hl⟩
  · exact Or.inr ⟨by rw [htar], row, htar ▸ hl, hra⟩

lemma mem_phase2_facts (S : List String) (store : StoreMap) (op : Op)
    (h : op ∈ store.filterMap (deactOp S)) :
    op = Op.SetActive (Op.targetId op) false ∧ Op.targetId op ∉ S ∧
      ∃ w, (Op.targetId op, w) ∈ store ∧ w.active = true := by
  obtain ⟨kv, hkv, hro⟩ := List.mem_filterMap.mp h
  obtain ⟨rfl, hnotS, hactv⟩ := deactOp_eq_some _ _ _ hro
  exact ⟨rfl, hnotS, ⟨kv.2, by simpa using hkv, hactv⟩⟩

/-! ### Effect of applying the operations to the store -/

lemma lookup_applyOp_ins (s : StoreMap) (j a i : String) :
    lookupDict i (applyOp s (Op.Insert j a)) =
      if j = i then some ⟨0, a, some j, true⟩ else lookupDict i s := by
  unfold applyOp
  exact lookupDict_dictInsert i j _ s

lemma lookup_applyOp_set (s : StoreMap) (j : String) (b : Bool) (i : String) :
    lookupDict i (applyOp s (Op.SetActive j b)) =
      (lookupDict i s).map
        (fun r => if i = j then { r with active := b } else r) := by
  induction s with
  | nil => rfl
  | cons kv s ih =>
    obtain ⟨k, w⟩ := kv
    simp only [applyOp] at ih ⊢
    rw [List.map_cons]
    have hhead : (if (k, w).1 = j then ((k, w).1, { (k, w).2 with active := b })
        else (k, w)) = (k, if k = j then { w with active := b } else w) := by
      by_cases hkj : k = j <;> simp [hkj]
    rw [hhead]
    simp only [lookupDict]
    by_cases hki : k = i
    · rw [if_pos hki, if_pos hki]
      by_cases hkj : k = j
      · have hij : i = j := by rw [← hki]; exact hkj
        simp [hkj, hij]
      · have hij : ¬ i = j := by rw [← hki]; exact hkj
        simp [hkj, hij]
    · rw [if_neg hki, if_neg hki]
      exact ih

lemma lookup_applyOp_ne (s : StoreMap) (op : Op) (i : String)
    (h : Op.targetId op ≠ i) :
    lookupDict i (applyOp s op) = lookupDict i s := by
  cases op with
  | Insert j a =>
    rw [lookup_applyOp_ins]
    exact if_neg h
  | SetActive j b =>
    rw [lookup_applyOp_set]
    have hij : ¬ i = j := fun hx => h hx.symm
    cases lookupDict i s <;> simp [hij]

lemma mem_applyOp_ne (s : StoreMap) (op : Op) (k : String) (r : SupaRow)
    (htar : Op.targetId op ≠ k) (h : (k, r) ∈ applyOp s op) : (k, r) ∈ s := by
  cases op with
  | Insert j a =>
    rcases mem_dictInsert k j r _ s h with ⟨hk, -⟩ | hmem
    · exact absurd hk.symm htar
    · exact hmem
  | SetActive j b =>
    obtain ⟨kv, hkv, heq⟩ := List.mem_map.mp h
    by_cases hkj : kv.1 = j
    · rw [if_pos hkj] at heq
      have : kv.1 = k := congrArg Prod.fst heq
      rw [this] at hkj
      exact absurd hkj.symm htar
    · rw [if_neg hkj] at heq
      exact heq ▸ hkv

/-- After an operation list whose every operation aimed at `i` either
inserts `i` or reactivates `i`, the id `i` is mapped to an active row,
provided it was mapped to a row before and was either already active or
is the target of at least one of the operations. -/
lemma applyOps_active (l : List Op) (i : String)
    (hact : ∀ op ∈ l, Op.targetId op = i →
      (∃ a, op = Op.Insert i a) ∨ op = Op.SetActive i true) :
    ∀ (s : StoreMap) (r : SupaRow), lookupDict i s = some r →
      ((∃ op ∈ l, Op.targetId op = i) ∨ r.active = true) →
      ∃ r', lookupDict i (applyOps s l) = some r' ∧ r'.active = true := by
  induction l with
  | nil =>
    intro s r hl hcase
    rcases hcase with ⟨op, hop, -⟩ | hactive
    · cases hop
    · exact ⟨r, hl, hactive⟩
  | cons op l ih =>
    intro s r hl hcase
    have hact' : ∀ op' ∈ l, Op.targetId op' = i →
        (∃ a, op' = Op.Insert i a) ∨ op' = Op.SetActive i true :=
      fun op' hop' => hact op' (List.mem_cons_of_mem _ hop')
    by_cases htar : Op.targetId op = i
    · rcases hact op (List.mem_cons_self _ _) htar with ⟨a, rfl⟩ | rfl
      · have hl' : lookupDict i (applyOp s (Op.Insert i a)) =
            some ⟨0, a, some i, true⟩ := by
          rw [lookup_applyOp_ins]
          simp
        exact ih hact' _ _ hl' (Or.inr rfl)
      · have hl' : lookupDict i (applyOp s (Op.SetActive i true)) =
            some { r with active := true } := by
          rw [lookup_applyOp_set, hl]
          simp
        exact ih hact' _ _ hl' (Or.inr rfl)
    · have hl' : lookupDict i (applyOp s op) = some r := by
        rw [lookup_applyOp_ne s op i htar]
        exact hl
      rcases hcase with ⟨op', hop', htar'⟩ | hactive
      · rcases List.mem_cons.mp hop' with rfl | hop'l
        · exact absurd htar' htar
        · exact ih hact' _ _ hl' (Or.inl ⟨op', hop'l, htar'⟩)
      · exact ih hact' _ _ hl' (Or.inr hactive)

/-- After an operation list whose every operation aimed at `i` is an
insert of `i`, and that contains at least one such operation, the id `i`
is mapped to an active row even if it was unmapped before. -/
lemma applyOps_active_of_none (l : List Op) (i : String)
    (hins : ∀ op ∈ l, Op.targetId op = i → ∃ a, op = Op.Insert i a) :
    ∀ s : StoreMap, lookupDict i s = none →
      (∃ op ∈ l, Op.targetId op = i) →
      ∃ r', lookupDict i (applyOps s l) = some r' ∧ r'.active = true := by
  induction l with
  | nil =>
    intro s _ hex
    obtain ⟨op, hop, -⟩ := hex
    cases hop
  | cons op l ih =>
    intro s hnone hex
    have hins' : ∀ op' ∈ l, Op.targetId op' = i → ∃ a, op' = Op.Insert i a :=
      fun op' hop' => hins op' (List.mem_cons_of_mem _ hop')
    by_cases htar : Op.targetId op = i
    · obtain ⟨a, rfl⟩ := hins op (List.mem_cons_self _ _) htar
      have hl' : lookupDict i (applyOp s (Op.Insert i a)) =
          some ⟨0, a, some i, true⟩ := by
        rw [lookup_applyOp_ins]
        simp
      exact applyOps_active l i
        (fun op' hop' htar' => Or.inl (hins' op' hop' htar')) _ _ hl'
        (Or.inr rfl)
    · have hl' : lookupDict i (applyOp s op) = none := by
        rw [lookup_applyOp_ne s op i htar]
        exact hnone
      rcases hex with ⟨op', hop', htar'⟩
      rcases List.mem_cons.mp hop' with rfl | hop'l
      · exact absurd htar' htar
      · exact ih hins' _ hl' ⟨op', hop'l, htar'⟩

/-- After an operation list whose every operation aimed at `k` is a
deactivation of `k`, every row the mapping holds under `k` is inactive,
provided either some operation targets `k` or all rows under `k` were
already inactive. -/
lemma applyOps_inactive (l : List Op) (k : String)
    (h1 : ∀ op ∈ l, Op.targetId op = k → op = Op.SetActive k false) :
    ∀ s : StoreMap,
      ((∃ op ∈ l, Op.targetId op = k) ∨
        (∀ r, (k, r) ∈ s → r.active = false)) →
      ∀ r, (k, r) ∈ applyOps s l → r.active = false := by
  induction l with
  | nil =>
    intro s hcase r hmem
    rcases hcase with ⟨op, hop, -⟩ | hinact
    · cases hop
    · exact hinact r hmem
  | cons op l ih =>
    intro s hcase r hmem
    have h1' : ∀ op' ∈ l, Op.targetId op' = k → op' = Op.SetActive k false :=
      fun op' hop' => h1 op' (List.mem_cons_of_mem _ hop')
    by_cases htar : Op.targetId op = k
    · have hop := h1 op (List.mem_cons_self _ _) htar
      subst hop
      apply ih h1' (applyOp s (Op.SetActive k false)) (Or.inr ?_) r hmem
      intro r' hr'
      obtain ⟨kv, hkv, heq⟩ := List.mem_map.mp hr'
      by_cases hk : kv.1 = k
      · rw [if_pos hk] at heq
        have : { kv.2 with active := false } = r' := congrArg Prod.snd heq
        rw [← this]
      · rw [if_neg hk] at heq
        exact absurd (congrArg Prod.fst heq) hk
    · apply ih h1' (applyOp s op) ?_ r hmem
      rcases hcase with ⟨op', hop', htar'⟩ | hinact
      · rcases List.mem_cons.mp hop' with rfl | hop'l
        · exact absurd htar' htar
        · exact Or.inl ⟨op', hop'l, htar'⟩
      · right
        intro r' hr'
        exact hinact r' (mem_applyOp_ne s op k r' htar hr')

/-- After a run's operations are applied, every id the external list
validly mentions is mapped to an active row. -/
lemma active_after_apply (ext : List ExtProp) (store : StoreMap) (i : String)
    (hi : i ∈ validIds ext) :
    ∃ r', lookupDict i (applyOps store (reconcileOps ext store)) = some r' ∧
      r'.active = true := by
  have hact : ∀ op ∈ reconcileOps ext store, Op.targetId op = i →
      (∃ a, op = Op.Insert i a) ∨ op = Op.SetActive i true := by
    intro op hop htar
    rcases List.mem_append.mp hop with h1 | h2
    · rcases (mem_phase1_facts store ext op h1).2 with ⟨a, hopeq, -⟩ | ⟨hopeq, -⟩
      · exact Or.inl ⟨a, by rw [hopeq, htar]⟩
      · exact Or.inr (by rw [hopeq, htar])
    · obtain ⟨-, hnotS, -⟩ := mem_phase2_facts _ store op h2
      exact absurd (htar ▸ hi) hnotS
  obtain ⟨p, hp, hv, hpi⟩ := (mem_validIds ext i).mp hi
  have hrv := (validExt_iff p).mp hv
  cases hl : lookupDict i store with
  | some r =>
    by_cases hr : r.active = true
    · exact applyOps_active _ i hact store r hl (Or.inr hr)
    · have hro : recordOp store p = some (Op.SetActive i true) := by
        unfold recordOp
        rw [if_neg (by tauto), hpi, hl]
        simp [hr]
      have hopmem : Op.SetActive i true ∈ reconcileOps ext store :=
        List.mem_append_left _ (List.mem_filterMap.mpr ⟨p, hp, hro⟩)
      exact applyOps_active _ i hact store r hl (Or.inl ⟨_, hopmem, rfl⟩)
  | none =>
    have hins : ∀ op ∈ reconcileOps ext store, Op.targetId op = i →
        ∃ a, op = Op.Insert i a := by
      intro op hop htar
      rcases List.mem_append.mp hop with h1 | h2
      · rcases (mem_phase1_facts store ext op h1).2 with ⟨a, hopeq, -⟩ |
          ⟨-, row, hlrow, -⟩
        · exact ⟨a, by rw [hopeq, htar]⟩
        · rw [htar, hl] at hlrow
          cases hlrow
      · obtain ⟨-, hnotS, -⟩ := mem_phase2_facts _ store op h2
        exact absurd (htar ▸ hi) hnotS
    have hro : recordOp store p = some (Op.Insert i (extAddr p)) := by
      unfold recordOp
      rw [if_neg (by tauto), hpi, hl]
    have hopmem : Op.Insert i (extAddr p) ∈ reconcileOps ext store :=
      List.mem_append_left _ (List.mem_filterMap.mpr ⟨p, hp, hro⟩)
    exact applyOps_active_of_none _ i hins store hl ⟨_, hopmem, rfl⟩

/-- After a run's operations are applied, every row still held under an
id the external list does not validly mention is inactive. -/
lemma inactive_after_apply (ext : List ExtProp) (store : StoreMap)
    (k : String) (r : SupaRow) (hk : k ∉ validIds ext)
    (hmem : (k, r) ∈ applyOps store (reconcileOps ext store)) :
    r.active = false := by
  have h1 : ∀ op ∈ reconcileOps ext store, Op.targetId op = k →
      op = Op.SetActive k false := by
    intro op hop htar
    rcases List.mem_append.mp hop with hp1 | hp2
    · have hmemS := (mem_phase1_facts store ext op hp1).1
      rw [htar] at hmemS
      exact absurd hmemS hk
    · obtain ⟨hopeq, -, -⟩ := mem_phase2_facts _ store op hp2
      rw [hopeq, htar]
  apply applyOps_inactive _ k h1 store ?_ r hmem
  by_cases hex : ∃ w, (k, w) ∈ store ∧ w.active = true
  · obtain ⟨w, hw, hwa⟩ := hex
    refine Or.inl ⟨Op.SetActive k false,
      List.mem_append_right _ (List.mem_filterMap.mpr ⟨(k, w), hw, ?_⟩), rfl⟩
    unfold deactOp
    rw [if_pos ⟨hk, hwa⟩]
  · right
    intro r' hr'
    by_cases hra : r'.active = true
    · exact absurd ⟨r', hr', hra⟩ hex
    · simpa using hra

/-- In a store where every validly mentioned id is mapped to an active
row and every other id only to inactive rows, a reconciliation run over
the same external list produces no operation and counts every processed
record as unchanged. -/
lemma reconcile_idem_aux (ext : List ExtProp) (store₂ : StoreMap)
    (hK1 : ∀ i ∈ validIds ext,
      ∃ r', lookupDict i store₂ = some r' ∧ r'.active = true)
    (hK2 : ∀ k r, k ∉ validIds ext → (k, r) ∈ store₂ → r.active = false) :
    reconcileOps ext store₂ = [] ∧
      unchangedCount store₂ ext = (ext.filter validExt).length := by
  constructor
  · unfold reconcileOps
    apply List.append_eq_nil.mpr
    constructor
    · apply List.filterMap_eq_nil_iff.mpr
      intro p hp
      by_cases hv : validExt p = true
      · have hi : extId p ∈ validIds ext :=
          (mem_validIds ext _).mpr ⟨p, hp, hv, rfl⟩
        obtain ⟨r', hl', hact'⟩ := hK1 (extId p) hi
        have hrv := (validExt_iff p).mp hv
        unfold recordOp
        rw [if_neg (by tauto), hl']
        simp [hact']
      · exact recordOp_none_of_invalid _ p (by simpa using hv)
    · apply List.filterMap_eq_nil_iff.mpr
      intro kv hkv
      unfold deactOp
      rw [if_neg]
      rintro ⟨hnotS, hactv⟩
      have : kv.2.active = false := by
        apply hK2 kv.1 kv.2 hnotS
        simpa using hkv
      rw [this] at hactv
      cases hactv
  · unfold unchangedCount
    have hcong : ∀ p ∈ ext, unchangedRec store₂ p = validExt p := by
      intro p hp
      by_cases hv : validExt p = true
      · have hi : extId p ∈ validIds ext :=
          (mem_validIds ext _).mpr ⟨p, hp, hv, rfl⟩
        obtain ⟨r', hl', hact'⟩ := hK1 (extId p) hi
        unfold unchangedRec
        rw [hl', hv]
        simp [hact']
      · have hvf : validExt p = false := by simpa using hv
        unfold unchangedRec
        rw [hvf]
        simp
    rw [List.filter_congr hcong]

/-- Running the reconciliation again on the unchanged external list and
the store with all of the first run's operations applied produces no
operation at all, and counts every processed record as unchanged. -/
lemma reconcile_idem (ext : List ExtProp) (store : StoreMap) :
    reconcileOps ext (applyOps store (reconcileOps ext store)) = [] ∧
      unchangedCount (applyOps store (reconcileOps ext store)) ext =
        (ext.filter validExt).length :=
  reconcile_idem_aux ext (applyOps store (reconcileOps ext store))
    (active_after_apply ext store)
    (fun k r => inactive_after_apply ext store k r)

/-! ### The store reader's index -/

/-- The rows of a fetch that carry a present, non-empty `appfolio_id`,
keyed by that id, in fetch order. -/
def validPairs (rows : List SupaRow) : List (String × SupaRow) :=
  rows.filterMap (fun p => (rowKey p).map (fun k => (k, p)))

lemma rowKey_eq_some (p : SupaRow) (k : String) :
    rowKey p = some k ↔ (p.appfolio_id = some k ∧ k ≠ "") := by
  unfold rowKey
  cases ha : p.appfolio_id with
  | none => simp
  | some s =>
    by_cases hs : s = ""
    · subst hs
      simp
      exact fun h => h.symm
    · simp only [if_neg hs]
      constructor
      · intro h
        obtain rfl := Option.some_injective _ h
        exact ⟨rfl, hs⟩
      · rintro ⟨h, -⟩
        rw [Option.some_injective _ h]

lemma indexStep_eq (d : StoreMap) (p : SupaRow) :
    indexStep d p =
      match rowKey p with
      | some k => dictInsert k p d
      | none => d := by
  unfold indexStep rowKey
  cases p.appfolio_id with
  | none => rfl
  | some s => by_cases hs : s = "" <;> simp [hs]

lemma dictInsert_fresh (k : String) (v : SupaRow) (d : StoreMap)
    (h : k ∉ d.map Prod.fst) : dictInsert k v d = d ++ [(k, v)] := by
  induction d with
  | nil => rfl
  | cons kv d ih =>
    obtain ⟨k', v'⟩ := kv
    rw [List.map_cons, List.mem_cons] at h
    push_neg at h
    unfold dictInsert
    rw [if_neg (fun hx => h.1 hx.symm), ih h.2, List.cons_append]

lemma indexRows_go (rows : List SupaRow) :
    ∀ d : StoreMap, (d.map Prod.fst ++ rows.filterMap rowKey).Nodup →
      rows.foldl indexStep d = d ++ validPairs rows := by
  induction rows with
  | nil => intro d _; simp [validPairs]
  | cons p rows ih =>
    intro d hnd
    rw [List.foldl_cons, indexStep_eq]
    cases hk : rowKey p with
    | none =>
      simp only [List.filterMap_cons, hk] at hnd
      simp only [hk]
      rw [ih d hnd]
      unfold validPairs
      simp [List.filterMap_cons, hk]
    | some k =>
      simp only [List.filterMap_cons, hk] at hnd
      simp only [hk]
      have hfresh : k ∉ d.map Prod.fst := by
        intro hx
        exact (List.disjoint_of_nodup_append hnd) hx (List.mem_cons_self _ _)
      rw [dictInsert_fresh k p d hfresh]
      have hnd' : ((d ++ [(k, p)]).map Prod.fst ++
          rows.filterMap rowKey).Nodup := by
        rw [List.map_append, List.append_assoc]
        simpa using hnd
      rw [ih (d ++ [(k, p)]) hnd']
      unfold validPairs
      simp [List.filterMap_cons, hk]

/-- Under the invariant that the fetched rows carry pairwise distinct
non-empty `appfolio_id`s, the index of `fetch_supabase_properties` is
exactly the valid rows keyed by their id. -/
lemma indexRows_eq (rows : List SupaRow)
    (hnd : (rows.filterMap rowKey).Nodup) :
    indexRows rows = validPairs rows := by
  unfold indexRows
  have h := indexRows_go rows [] (by simpa using hnd)
  simpa using h

lemma mem_validPairs (rows : List SupaRow) (k : String) (p : SupaRow) :
    (k, p) ∈ validPairs rows ↔
      (p ∈ rows ∧ p.appfolio_id = some k ∧ k ≠ "") := by
  unfold validPairs
  rw [List.mem_filterMap]
  constructor
  · rintro ⟨q, hq, hmap⟩
    cases hk : rowKey q with
    | none => rw [hk] at hmap; cases hmap
    | some k' =>
      rw [hk] at hmap
      simp only [Option.map_some'] at hmap
      obtain ⟨h1, h2⟩ := Prod.mk.injEq .. |>.mp (Option.some_injective _ hmap)
      obtain ⟨ha, hne⟩ := (rowKey_eq_some q k').mp hk
      subst h2
      rw [← h1]
      exact ⟨hq, ha, hne⟩
  · rintro ⟨hp, ha, hne⟩
    refine ⟨p, hp, ?_⟩
    rw [(rowKey_eq_some p k).mpr ⟨ha, hne⟩]
    rfl

/-! ### Targets of each operation kind -/

lemma mem_insertTargets (l : List Op) (i : String) :
    i ∈ insertTargets l ↔ ∃ a, Op.Insert i a ∈ l := by
  unfold insertTargets
  rw [List.mem_filterMap]
  constructor
  · rintro ⟨op, hop, hsome⟩
    cases op with
    | Insert j a =>
      simp only [Option.some.injEq] at hsome
      exact ⟨a, hsome ▸ hop⟩
    | SetActive j b => simp at hsome
  · rintro ⟨a, ha⟩
    exact ⟨Op.Insert i a, ha, rfl⟩

lemma mem_reactTargets (l : List Op) (i : String) :
    i ∈ reactTargets l ↔ Op.SetActive i true ∈ l := by
  unfold reactTargets
  rw [List.mem_filterMap]
  constructor
  · rintro ⟨op, hop, hsome⟩
    cases op with
    | Insert j a => simp at hsome
    | SetActive j b =>
      cases b
      · simp at hsome
      · simp only [Option.some.injEq] at hsome
        exact hsome ▸ hop
  · intro h
    exact ⟨Op.SetActive i true, h, rfl⟩

lemma mem_deactTargets (l : List Op) (i : String) :
    i ∈ deactTargets l ↔ Op.SetActive i false ∈ l := by
  unfold deactTargets
  rw [List.mem_filterMap]
  constructor
  · rintro ⟨op, hop, hsome⟩
    cases op with
    | Insert j a => simp at hsome
    | SetActive j b =>
      cases b
      · simp only [Option.some.injEq] at hsome
        exact hsome ▸ hop
      · simp at hsome
  · intro h
    exact ⟨Op.SetActive i false, h, rfl⟩

lemma insert_target_facts (ext : List ExtProp) (store : StoreMap)
    (i a : String) (h : Op.Insert i a ∈ reconcileOps ext store) :
    lookupDict i store = none ∧ i ∈ validIds ext := by
  rcases List.mem_append.mp h with h1 | h2
  · have hfacts := mem_phase1_facts store ext (Op.Insert i a) h1
    simp only [Op.targetId] at hfacts
    rcases hfacts.2 with ⟨a', -, hl⟩ | ⟨hopeq, -⟩
    · exact ⟨hl, hfacts.1⟩
    · simp at hopeq
  · obtain ⟨hopeq, -, -⟩ := mem_phase2_facts _ store _ h2
    simp [Op.targetId] at hopeq

lemma react_target_facts (ext : List ExtProp) (store : StoreMap) (i : String)
    (h : Op.SetActive i true ∈ reconcileOps ext store) :
    (∃ row, lookupDict i store = some row ∧ row.active = false) ∧
      i ∈ validIds ext := by
  rcases List.mem_append.mp h with h1 | h2
  · have hfacts := mem_phase1_facts store ext (Op.SetActive i true) h1
    simp only [Op.targetId] at hfacts
    rcases hfacts.2 with ⟨a', hopeq, -⟩ | ⟨-, row, hl, hra⟩
    · simp at hopeq
    · exact ⟨⟨row, hl, hra⟩, hfacts.1⟩
  · obtain ⟨hopeq, -, -⟩ := mem_phase2_facts _ store _ h2
    simp [Op.targetId] at hopeq

lemma deact_target_facts (ext : List ExtProp) (store : StoreMap) (i : String)
    (h : Op.SetActive i false ∈ reconcileOps ext store) :
    i ∉ validIds ext := by
  rcases List.mem_append.mp h with h1 | h2
  · have hfacts := mem_phase1_facts store ext (Op.SetActive i false) h1
    simp only [Op.targetId] at hfacts
    rcases hfacts.2 with ⟨a', hopeq, -⟩ | ⟨hopeq, -⟩ <;> simp at hopeq
  · obtain ⟨-, hnotS, -⟩ := mem_phase2_facts _ store _ h2
    simpa [Op.targetId] using hnotS

/-! ### Unfolding the whole run -/

lemma sync_properties_missing (env : Env) (fa : Option (List ExtProp))
    (fs : Option (List SupaRow)) (wr : Nat → Bool)
    (h : missingVars env ≠ []) : sync_properties env fa fs wr = (1, none) := by
  unfold sync_properties
  rw [if_pos h]

lemma sync_properties_noA (env : Env) (fs : Option (List SupaRow))
    (wr : Nat → Bool) (h : missingVars env = []) :
    sync_properties env none fs wr = (1, none) := by
  unfold sync_properties
  rw [if_neg (by simp [h])]

lemma sync_properties_noS (env : Env) (ext : List ExtProp) (wr : Nat → Bool)
    (h : missingVars env = []) :
    sync_properties env (some ext) none wr = (1, none) := by
  unfold sync_properties
  rw [if_neg (by simp [h])]

lemma sync_properties_run (env : Env) (ext : List ExtProp)
    (rows : List SupaRow) (wr : Nat → Bool) (h : missingVars env = []) :
    sync_properties env (some ext) (some rows) wr =
      (if (runSync (indexRows rows) wr ext).stats.errors > 0 then 1 else 0,
        some (runSync (indexRows rows) wr ext)) := by
  unfold sync_properties
  rw [if_neg (by simp [h])]

/-! ### The claims -/

/-- C1: the claim says a record with an empty or missing id is skipped
entirely. The code applies `str(...)` to `prop.get("property_id")`, so a
missing id becomes the non-empty string "None": on the concrete input
`{property_address: "12 Main St"}` (no `property_id` field) and an empty
store, the run adds "None" to the id set and emits an insert for it,
contradicting the claim for the missing-id case (the empty-id and
empty-name cases do skip). -/
theorem missing_id_not_skipped :
    reconcileOps [ExtProp.mk none (some "12 Main St")] [] =
        [Op.Insert "None" "12 Main St"] ∧
      "None" ∈ validIds [ExtProp.mk none (some "12 Main St")] := by
  decide

/-- C2: as stated the claim is false: the store mapping is not updated
during the loop, so an id occurring twice (valid, absent from the store)
is inserted twice, not once. -/
theorem dup_insert_cex :
    (reconcileOps [ExtProp.mk (some "A0") (some "X"),
        ExtProp.mk (some "A0") (some "X")] ([] : StoreMap)).countP
        (isInsertFor "A0") = 2 ∧
      ¬ (reconcileOps [ExtProp.mk (some "A0") (some "X"),
        ExtProp.mk (some "A0") (some "X")] ([] : StoreMap)).countP
        (isInsertFor "A0") = 1 := by
  decide

/-- C2 (amended): for an id absent from the store mapping, one run emits
exactly one insert per processed occurrence of the id in the external
list — hence exactly one when the id occurs exactly once. -/
theorem insert_per_occurrence (ext : List ExtProp) (store : StoreMap)
    (i : String) (h : lookupDict i store = none) :
    (reconcileOps ext store).countP (isInsertFor i) = occIn i ext :=
  countInsertFor store ext i h

/-- C2 witness: a single fresh valid record yields exactly one insert. -/
theorem insert_per_occurrence_witness :
    lookupDict "A0" ([] : StoreMap) = none ∧
      (reconcileOps [ExtProp.mk (some "A0") (some "X")] []).countP
          (isInsertFor "A0") =
        occIn "A0" [ExtProp.mk (some "A0") (some "X")] :=
  ⟨by decide, insert_per_occurrence [ExtProp.mk (some "A0") (some "X")] []
    "A0" (by decide)⟩

/-- C3: as stated the claim is false: the in-memory store row is never
marked reactivated, so a duplicated id whose store row is inactive is
reactivated once per occurrence, not once per run. -/
theorem dup_react_cex :
    (reconcileOps [ExtProp.mk (some "B0") (some "X"),
        ExtProp.mk (some "B0") (some "X")]
        [("B0", SupaRow.mk 7 "Y" (some "B0") false)]).countP
        (isReactFor "B0") = 2 ∧
      ¬ (reconcileOps [ExtProp.mk (some "B0") (some "X"),
        ExtProp.mk (some "B0") (some "X")]
        [("B0", SupaRow.mk 7 "Y" (some "B0") false)]).countP
        (isReactFor "B0") = 1 := by
  decide

/-- C3 (amended): for a store row with `active = false`, one run emits
exactly one reactivation per processed occurrence of its id in the
external list — hence exactly one when the id occurs exactly once. -/
theorem react_per_occurrence (ext : List ExtProp) (store : StoreMap)
    (i : String) (row : SupaRow) (h1 : lookupDict i store = some row)
    (h2 : row.active = false) :
    (reconcileOps ext store).countP (isReactFor i) = occIn i ext :=
  countReactFor store ext i row h1 h2

/-- C3 witness: a single occurrence of an inactive store row's id yields
exactly one reactivation. -/
theorem react_per_occurrence_witness :
    lookupDict "B0" [("B0", SupaRow.mk 7 "Y" (some "B0") false)] =
        some (SupaRow.mk 7 "Y" (some "B0") false) ∧
      (reconcileOps [ExtProp.mk (some "B0") (some "X")]
          [("B0", SupaRow.mk 7 "Y" (some "B0") false)]).countP
          (isReactFor "B0") =
        occIn "B0" [ExtProp.mk (some "B0") (some "X")] :=
  ⟨by decide, react_per_occurrence [ExtProp.mk (some "B0") (some "X")]
    [("B0", SupaRow.mk 7 "Y" (some "B0") false)] "B0"
    (SupaRow.mk 7 "Y" (some "B0") false) (by decide) (by decide)⟩

/-- C4: a store row whose id the external list does not validly mention
is deactivated exactly once if still active, and receives no operation
at all if already inactive. -/
theorem deactivate_policy (ext : List ExtProp) (store : StoreMap)
    (i : String) (row : SupaRow) (hnd : (store.map Prod.fst).Nodup)
    (hmem : (i, row) ∈ store) (hni : i ∉ validIds ext) :
    (row.active = true →
      (reconcileOps ext store).countP (isDeactFor i) = 1) ∧
    (row.active = false →
      (reconcileOps ext store).countP (targets i) = 0) := by
  constructor
  · intro hact
    exact countDeactFor store ext i row hnd hmem hact hni
  · intro hnact
    unfold reconcileOps
    rw [List.countP_append, countTargets_phase1_zero_notS store ext i hni,
      countTargets_phase2_zero_inactive (validIds ext) store i row hnd hmem
        hnact]

/-- C4 witness: an active store row absent from the external list is
deactivated exactly once. -/
theorem deactivate_policy_witness :
    (([("B1", SupaRow.mk 4 "Y" (some "B1") true)] : StoreMap).map
        Prod.fst).Nodup ∧
      ("B1", SupaRow.mk 4 "Y" (some "B1") true) ∈
        ([("B1", SupaRow.mk 4 "Y" (some "B1") true)] : StoreMap) ∧
      "B1" ∉ validIds [] ∧
      (reconcileOps [] [("B1", SupaRow.mk 4 "Y" (some "B1") true)]).countP
          (isDeactFor "B1") = 1 :=
  ⟨by decide, by decide, by decide,
    (deactivate_policy [] [("B1", SupaRow.mk 4 "Y" (some "B1") true)] "B1"
      (SupaRow.mk 4 "Y" (some "B1") true) (by decide) (by decide)
      (by decide)).1 rfl⟩

/-- C5: an id that appears in the external list only with an empty
(stripped) address is treated as absent: an active store row under that
id is deactivated. -/
theorem empty_name_treated_absent (ext : List ExtProp) (store : StoreMap)
    (i : String) (row : SupaRow) (happ : ∃ p ∈ ext, extId p = i)
    (hempty : ∀ p ∈ ext, extId p = i → extAddr p = "")
    (hmem : (i, row) ∈ store) (hact : row.active = true) :
    Op.SetActive i false ∈ reconcileOps ext store := by
  have hni : i ∉ validIds ext := by
    intro hi
    obtain ⟨p, hp, hv, hpi⟩ := (mem_validIds ext i).mp hi
    exact ((validExt_iff p).mp hv).2 (hempty p hp hpi)
  apply List.mem_append_right
  apply List.mem_filterMap.mpr
  refine ⟨(i, row), hmem, ?_⟩
  unfold deactOp
  rw [if_pos ⟨hni, hact⟩]

/-- C5 witness: id "C1" appears only with a whitespace address, and its
active store row gets the deactivation. -/
theorem empty_name_treated_absent_witness :
    (∃ p ∈ [ExtProp.mk (some "C1") (some " ")], extId p = "C1") ∧
      (∀ p ∈ [ExtProp.mk (some "C1") (some " ")],
        extId p = "C1" → extAddr p = "") ∧
      Op.SetActive "C1" false ∈
        reconcileOps [ExtProp.mk (some "C1") (some " ")]
          [("C1", SupaRow.mk 9 "Z" (some "C1") true)] :=
  ⟨by decide, by decide,
    empty_name_treated_absent [ExtProp.mk (some "C1") (some " ")]
      [("C1", SupaRow.mk 9 "Z" (some "C1") true)] "C1"
      (SupaRow.mk 9 "Z" (some "C1") true) (by decide) (by decide)
      (by decide) rfl⟩

/-- C6: if every write of a run succeeds and takes effect on the store
mapping — an insert files an active row under the id, a `SetActive` sets
the matching rows' flag — then a second run over the unchanged external
list produces zero operations and counts every processed record as
unchanged. -/
theorem sync_idempotent (ext : List ExtProp) (store : StoreMap) :
    (runSync (applyOps store (runSync store (fun _ => true) ext).ops)
        (fun _ => true) ext).ops = [] ∧
      (runSync (applyOps store (runSync store (fun _ => true) ext).ops)
          (fun _ => true) ext).stats.unchanged =
        (ext.filter validExt).length := by
  constructor
  · rw [runSync_ops, runSync_ops]
    exact (reconcile_idem ext store).1
  · rw [runSync_unchanged, runSync_ops]
    exact (reconcile_idem ext store).2

/-- C7: the process exits 0 exactly when the four credentials are
present, both fetches succeed and the error counter is zero; whenever
the run reaches the write phase, the full operation trace is attempted
regardless of write outcomes, and every attempted operation is counted
in exactly one of the added / reactivated / deactivated / errors
counters. -/
theorem exit_code_policy (env : Env) (fa : Option (List ExtProp))
    (fs : Option (List SupaRow)) (wr : Nat → Bool) :
    ((sync_properties env fa fs wr).1 = 0 ↔
      (missingVars env = [] ∧ ∃ ext rows, fa = some ext ∧ fs = some rows ∧
        (runSync (indexRows rows) wr ext).stats.errors = 0)) ∧
    (∀ ext rows, fa = some ext → fs = some rows → missingVars env = [] →
      (sync_properties env fa fs wr).2 =
          some (runSync (indexRows rows) wr ext) ∧
        (runSync (indexRows rows) wr ext).ops =
          reconcileOps ext (indexRows rows) ∧
        (runSync (indexRows rows) wr ext).stats.added +
            (runSync (indexRows rows) wr ext).stats.reactivated +
            (runSync (indexRows rows) wr ext).stats.deactivated +
            (runSync (indexRows rows) wr ext).stats.errors =
          (reconcileOps ext (indexRows rows)).length) := by
  constructor
  · by_cases hm : missingVars env = []
    · cases fa with
      | none =>
        rw [sync_properties_noA env fs wr hm]
        simp [hm]
      | some ext =>
        cases fs with
        | none =>
          rw [sync_properties_noS env ext wr hm]
          simp [hm]
        | some rows =>
          rw [sync_properties_run env ext rows wr hm]
          by_cases he : (runSync (indexRows rows) wr ext).stats.errors = 0
          · simp [he, hm]
          · have hpos : 0 < (runSync (indexRows rows) wr ext).stats.errors :=
              Nat.pos_of_ne_zero he
            constructor
            · intro h0
              rw [if_pos hpos] at h0
              cases h0
            · rintro ⟨-, ext', rows', hext, hrows, he'⟩
              obtain rfl : ext = ext' := Option.some_injective _ hext
              obtain rfl : rows = rows' := Option.some_injective _ hrows
              exact absurd he' he
    · rw [sync_properties_missing env fa fs wr (by simpa using hm)]
      simp [hm]
  · intro ext rows hfa hfs hm
    subst hfa
    subst hfs
    rw [sync_properties_run env ext rows wr hm]
    exact ⟨rfl, runSync_ops _ wr ext, runSync_countSum _ wr ext⟩

/-- C7 witness: with all credentials present, both fetches succeeding
and an empty dataset, the run completes, its trace is the reconciliation
trace and the counters add up. -/
theorem exit_code_policy_witness :
    (sync_properties ⟨some "i", some "s", some "u", some "k"⟩ (some [])
          (some []) (fun _ => true)).2 =
        some (runSync (indexRows []) (fun _ => true) []) ∧
      (runSync (indexRows []) (fun _ => true) []).ops =
        reconcileOps [] (indexRows []) ∧
      (runSync (indexRows []) (fun _ => true) []).stats.added +
          (runSync (indexRows []) (fun _ => true) []).stats.reactivated +
          (runSync (indexRows []) (fun _ => true) []).stats.deactivated +
          (runSync (indexRows []) (fun _ => true) []).stats.errors =
        (reconcileOps [] (indexRows [])).length :=
  (exit_code_policy ⟨some "i", some "s", some "u", some "k"⟩ (some [])
    (some []) (fun _ => true)).2 [] [] rfl rfl (by decide)

/-- C8: in one run no id is the target of two different kinds of
operation: the insert, reactivate and deactivate target sets are
pairwise disjoint. -/
theorem op_kinds_disjoint (ext : List ExtProp) (store : StoreMap)
    (i : String) :
    (i ∈ insertTargets (reconcileOps ext store) →
      i ∉ reactTargets (reconcileOps ext store)) ∧
    (i ∈ insertTargets (reconcileOps ext store) →
      i ∉ deactTargets (reconcileOps ext store)) ∧
    (i ∈ reactTargets (reconcileOps ext store) →
      i ∉ deactTargets (reconcileOps ext store)) := by
  refine ⟨?_, ?_, ?_⟩
  · intro hins hreact
    obtain ⟨a, hmemi⟩ := (mem_insertTargets _ i).mp hins
    obtain ⟨hl, -⟩ := insert_target_facts ext store i a hmemi
    obtain ⟨⟨row, hl', -⟩, -⟩ :=
      react_target_facts ext store i ((mem_reactTargets _ i).mp hreact)
    rw [hl] at hl'
    cases hl'
  · intro hins hdeact
    obtain ⟨a, hmemi⟩ := (mem_insertTargets _ i).mp hins
    obtain ⟨-, hS⟩ := insert_target_facts ext store i a hmemi
    exact deact_target_facts ext store i
      ((mem_deactTargets _ i).mp hdeact) hS
  · intro hreact hdeact
    obtain ⟨-, hS⟩ :=
      react_target_facts ext store i ((mem_reactTargets _ i).mp hreact)
    exact deact_target_facts ext store i
      ((mem_deactTargets _ i).mp hdeact) hS

/-- C8 witness: a freshly inserted id is not also deactivated. -/
theorem op_kinds_disjoint_witness :
    "A0" ∈ insertTargets
        (reconcileOps [ExtProp.mk (some "A0") (some "X")] []) ∧
      "A0" ∉ deactTargets
        (reconcileOps [ExtProp.mk (some "A0") (some "X")] []) :=
  ⟨by decide,
    (op_kinds_disjoint [ExtProp.mk (some "A0") (some "X")] [] "A0").2.1
      (by decide)⟩

/-- C9: a `SetActive` update payload carries only the `active` field,
and a record present in both datasets whose store row is already active
is the target of no operation at all. -/
theorem setactive_frame (ext : List ExtProp) (store : StoreMap)
    (i : String) (row : SupaRow) (b : Bool) (h0 : i ∈ validIds ext)
    (h1 : lookupDict i store = some row) (h2 : row.active = true) :
    (update_payload b).map Prod.fst = ["active"] ∧
      (reconcileOps ext store).countP (targets i) = 0 := by
  constructor
  · rfl
  · unfold reconcileOps
    rw [List.countP_append,
      countTargets_phase1_zero_active store ext i row h1 h2,
      countTargets_phase2_zero_inS (validIds ext) store i h0]

/-- C9 witness: an id present and active on both sides receives no
operation, and the payload shape is the single `active` field. -/
theorem setactive_frame_witness :
    "D0" ∈ validIds [ExtProp.mk (some "D0") (some "X")] ∧
      (update_payload true).map Prod.fst = ["active"] ∧
      (reconcileOps [ExtProp.mk (some "D0") (some "X")]
          [("D0", SupaRow.mk 5 "W" (some "D0") true)]).countP
        (targets "D0") = 0 :=
  ⟨by decide,
    (setactive_frame [ExtProp.mk (some "D0") (some "X")]
      [("D0", SupaRow.mk 5 "W" (some "D0") true)] "D0"
      (SupaRow.mk 5 "W" (some "D0") true) true (by decide) (by decide)
      rfl).1,
    (setactive_frame [ExtProp.mk (some "D0") (some "X")]
      [("D0", SupaRow.mk 5 "W" (some "D0") true)] "D0"
      (SupaRow.mk 5 "W" (some "D0") true) true (by decide) (by decide)
      rfl).2⟩

/-- C10: under the invariant that fetched rows carry pairwise distinct
valid ids, the store reader's index holds exactly the rows with a
present, non-empty `appfolio_id` — both null and empty-string ids are
excluded — keyed by that id. -/
theorem store_index_exact (rows : List SupaRow)
    (hnd : (rows.filterMap rowKey).Nodup) :
    indexRows rows = validPairs rows ∧
      ∀ k p, (k, p) ∈ indexRows rows ↔
        (p ∈ rows ∧ p.appfolio_id = some k ∧ k ≠ "") := by
  have he := indexRows_eq rows hnd
  refine ⟨he, fun k p => ?_⟩
  rw [he]
  exact mem_validPairs rows k p

/-- C10 witness: a fetch with one valid id, one null id and one
empty-string id indexes only the valid row. -/
theorem store_index_exact_witness :
    ([SupaRow.mk 1 "X" (some "E0") true, SupaRow.mk 2 "Y" none false,
        SupaRow.mk 3 "Z" (some "") true].filterMap rowKey).Nodup ∧
      indexRows [SupaRow.mk 1 "X" (some "E0") true,
          SupaRow.mk 2 "Y" none false, SupaRow.mk 3 "Z" (some "") true] =
        validPairs [SupaRow.mk 1 "X" (some "E0") true,
          SupaRow.mk 2 "Y" none false, SupaRow.mk 3 "Z" (some "") true] :=
  ⟨by decide,
    (store_index_exact [SupaRow.mk 1 "X" (some "E0") true,
      SupaRow.mk 2 "Y" none false, SupaRow.mk 3 "Z" (some "") true]
      (by decide)).1⟩
